import Mathlib

/-!
Verification development for the DeArrowBrowser repository (`dearrow-parser`
and `dearrow-browser-server` crates).  Rust code is shallowly embedded:
`f64` arithmetic is modelled exactly over `ℚ` (all operations used by the
embedded code — `+`, `-`, `*`, `/`, `min`, comparisons — are exact on the
rational inputs considered here), machine integers are modelled as `Int`/`Nat`
(no claim depends on wrap-around), fallible code returns `Option`/`Except`,
and a Rust panic is modelled as the `none` value of an outer `Option` layer.
-/

namespace DAB

/-- Reduce a natural number modulo `2^32`; all SHA-256 words live below this. -/
def w32 (x : Nat) : Nat := x % 4294967296

/-- Right rotation of a 32-bit word, as used by the SHA-256 sigma functions. -/
def rotr32 (n x : Nat) : Nat := w32 ((x >>> n) ||| (x <<< (32 - n)))

/-- Modelled from the spec: SHA-256 lowercase sigma-0 (the `sha2` crate used by
`compute_hashprefix` in `dearrow-parser/src/lib.rs` is external to this repository;
the spec names the hash as SHA-256, implemented here from the standard). -/
def smallSigma0 (x : Nat) : Nat := (rotr32 7 x) ^^^ (rotr32 18 x) ^^^ (x >>> 3)

/-- Modelled from the spec: SHA-256 lowercase sigma-1. -/
def smallSigma1 (x : Nat) : Nat := (rotr32 17 x) ^^^ (rotr32 19 x) ^^^ (x >>> 10)

/-- Modelled from the spec: SHA-256 uppercase Sigma-0. -/
def bigSigma0 (x : Nat) : Nat := (rotr32 2 x) ^^^ (rotr32 13 x) ^^^ (rotr32 22 x)

/-- Modelled from the spec: SHA-256 uppercase Sigma-1. -/
def bigSigma1 (x : Nat) : Nat := (rotr32 6 x) ^^^ (rotr32 11 x) ^^^ (rotr32 25 x)

/-- Modelled from the spec: the 64 SHA-256 round constants (fractional parts of
the cube roots of the first 64 primes), written in decimal. -/
def shaK : List Nat :=
  [1116352408, 1899447441, 3049323471, 3921009573,
   961987163, 1508970993, 2453635748, 2870763221,
   3624381080, 310598401, 607225278, 1426881987,
   1925078388, 2162078206, 2614888103, 3248222580,
   3835390401, 4022224774, 264347078, 604807628,
   770255983, 1249150122, 1555081692, 1996064986,
   2554220882, 2821834349, 2952996808, 3210313671,
   3336571891, 3584528711, 113926993, 338241895,
   666307205, 773529912, 1294757372, 1396182291,
   1695183700, 1986661051, 2177026350, 2456956037,
   2730485921, 2820302411, 3259730800, 3345764771,
   3516065817, 3600352804, 4094571909, 275423344,
   430227734, 506948616, 659060556, 883997877,
   958139571, 1322822218, 1537002063, 1747873779,
   1955562222, 2024104815, 2227730452, 2361852424,
   2428436474, 2756734187, 3204031479, 3329325298]

/-- Modelled from the spec: the SHA-256 initial hash state, written in decimal. -/
def shaH0 : List Nat :=
  [1779033703, 3144134277, 1013904242, 2773480762,
   1359893119, 2600822924, 528734635, 1541459225]

/-- Append the next word of the SHA-256 message schedule. -/
def scheduleStep (ws : List Nat) : List Nat :=
  let n := ws.length
  ws ++ [w32 (smallSigma1 (ws.getD (n - 2) 0) + ws.getD (n - 7) 0
              + smallSigma0 (ws.getD (n - 15) 0) + ws.getD (n - 16) 0)]

/-- Extend a 16-word SHA-256 block to the full 64-word message schedule. -/
def mkSchedule (ws : List Nat) : List Nat :=
  (List.range 48).foldl (fun acc _ => scheduleStep acc) ws

/-- One SHA-256 compression round on the 8-word working state. -/
def compressStep (st : List Nat) (kw : Nat × Nat) : List Nat :=
  match st with
  | [a, b, c, d, e, f, g, h] =>
    let ch := (e &&& f) ^^^ ((e ^^^ 0xffffffff) &&& g)
    let maj := (a &&& b) ^^^ (a &&& c) ^^^ (b &&& c)
    let t1 := w32 (h + bigSigma1 e + ch + kw.1 + kw.2)
    let t2 := w32 (bigSigma0 a + maj)
    [w32 (t1 + t2), a, b, c, w32 (d + t1), e, f, g]
  | other => other

/-- SHA-256 compression of one 16-word block into the 8-word chaining state. -/
def compressBlock (h : List Nat) (block : List Nat) : List Nat :=
  let st := (shaK.zip (mkSchedule block)).foldl compressStep h
  (h.zip st).map (fun p => w32 (p.1 + p.2))

/-- Big-endian byte decomposition of a natural number into `n` bytes. -/
def beBytes : Nat → Nat → List Nat
  | 0, _ => []
  | n + 1, v => beBytes n (v / 256) ++ [v % 256]

/-- Modelled from the spec: SHA-256 message padding (length in bytes). -/
def shaPad (msg : List Nat) : List Nat :=
  msg ++ [0x80] ++ List.replicate ((55 + 64 - msg.length % 64) % 64) 0 ++ beBytes 8 (8 * msg.length)

/-- Group bytes into big-endian 32-bit words. -/
def bytesToWords : List Nat → List Nat
  | b0 :: b1 :: b2 :: b3 :: rest => (((b0 * 256 + b1) * 256 + b2) * 256 + b3) :: bytesToWords rest
  | _ => []

/-- Split a word list into 16-word blocks (the padded input is always a multiple of 16). -/
def chunks16 : List Nat → List (List Nat)
  | a1 :: a2 :: a3 :: a4 :: a5 :: a6 :: a7 :: a8 ::
    a9 :: a10 :: a11 :: a12 :: a13 :: a14 :: a15 :: a16 :: rest =>
    [a1, a2, a3, a4, a5, a6, a7, a8, a9, a10, a11, a12, a13, a14, a15, a16] :: chunks16 rest
  | _ => []

/-- Modelled from the spec: the SHA-256 digest of a byte string, as eight 32-bit words. -/
def sha256Words (msg : List Nat) : List Nat :=
  (chunks16 (bytesToWords (shaPad msg))).foldl compressBlock shaH0

/-- UTF-8 encoding of a single character as a byte list. -/
def utf8EncodeChar (c : Char) : List Nat :=
  let n := c.toNat
  if n < 0x80 then [n]
  else if n < 0x800 then [0xC0 + n / 64, 0x80 + n % 64]
  else if n < 0x10000 then [0xE0 + n / 4096, 0x80 + (n / 64) % 64, 0x80 + n % 64]
  else [0xF0 + n / 262144, 0x80 + (n / 4096) % 64, 0x80 + (n / 64) % 64, 0x80 + n % 64]

/-- UTF-8 byte sequence of a string (Rust `str` contents). -/
def utf8Bytes (s : String) : List Nat := (s.data.map utf8EncodeChar).flatten

/-- Embeds `compute_hashprefix` (`dearrow-parser/src/lib.rs` lines 503-508, source
name `compute_hashprefix`): the first 16 bits of the SHA-256 digest of the string,
i.e. the top half of the first digest word (big-endian bytes `hash[0], hash[1]`). -/
def computeHashPfx (s : String) : Nat :=
  match sha256Words (utf8Bytes s) with
  | h0 :: _ => h0 / 65536
  | [] => 0

/-- Embeds the Rust byte slice `&s[..4]`: `none` models the panic raised when the
string is shorter than 4 bytes or byte index 4 is not a character boundary
(a boundary is the end of the string or a byte outside `0x80..0xBF`). -/
def sliceBytes4 (s : String) : Option (List Nat) :=
  let bs := utf8Bytes s
  if bs.length < 4 then none
  else if bs.length = 4 then some (bs.take 4)
  else if 0x80 ≤ bs.getD 4 0 ∧ bs.getD 4 0 < 0xC0 then none
  else some (bs.take 4)

/-- Value of an ASCII hexadecimal digit byte, as accepted by `u16::from_str_radix`. -/
def hexDigit (b : Nat) : Option Nat :=
  if 48 ≤ b ∧ b ≤ 57 then some (b - 48)
  else if 97 ≤ b ∧ b ≤ 102 then some (b - 87)
  else if 65 ≤ b ∧ b ≤ 70 then some (b - 55)
  else none

/-- Accumulate hexadecimal digits; the accumulator stays `none` until one digit
has been read, so an empty digit string is rejected like `from_str_radix` does. -/
def parseHexDigits : List Nat → Option Nat → Option Nat
  | [], acc => acc
  | b :: bs, acc =>
    match hexDigit b with
    | none => none
    | some d => parseHexDigits bs (some (acc.getD 0 * 16 + d))

/-- Embeds `u16::from_str_radix(s, 16)` on the 4 sliced bytes: an optional leading
`+` (byte 43) is allowed, `-` and non-hex bytes fail; 4 hex digits cannot
overflow `u16`. -/
def parseU16Hex (bs : List Nat) : Option Nat :=
  match bs with
  | 43 :: rest => parseHexDigits rest none
  | _ => parseHexDigits bs none

/-- Embeds the `hash_prefix` field expression shared by `Title::try_merge`,
`Thumbnail::try_merge` and `SponsorTime::filter_and_split`
(`dearrow-parser/src/lib.rs` lines 689-692, 717-721, 728-731): hex-parse the
first four bytes of `hashedVideoID`, falling back to SHA-256 of the video id,
with `none` modelling the slice panic on a short field. -/
def rowHashPfx (hashed_video_id video_id : String) : Option Nat :=
  match sliceBytes4 hashed_video_id with
  | none => none
  | some pre => some ((parseU16Hex pre).getD (computeHashPfx video_id))

/-- Flag set of a merged title (`TitleFlags` bitflags in `dearrow-parser/src/lib.rs`). -/
structure TitleFlags where
  original : Bool
  locked : Bool
  shadowHidden : Bool
  unverified : Bool
  removed : Bool
deriving DecidableEq

/-- Merged `Title` record (`dearrow-parser/src/lib.rs` lines 41-52); the source
field `hash_prefix : u16` is named `hashPfx` here. -/
structure Title where
  uuid : String
  video_id : String
  title : String
  user_id : String
  time_submitted : Int
  votes : Int
  downvotes : Int
  flags : TitleFlags
  hashPfx : Nat
deriving DecidableEq

/-- Flag set of a merged thumbnail (`ThumbnailFlags` bitflags). -/
structure ThumbnailFlags where
  original : Bool
  locked : Bool
  shadowHidden : Bool
  removed : Bool
deriving DecidableEq

/-- Merged `Thumbnail` record (`dearrow-parser/src/lib.rs` lines 29-39). -/
structure Thumbnail where
  uuid : String
  video_id : String
  user_id : String
  time_submitted : Int
  timestamp : Option ℚ
  votes : Int
  downvotes : Int
  flags : ThumbnailFlags
  hashPfx : Nat
deriving DecidableEq

/-- Raw `csv_data::Title` row. -/
structure CsvTitle where
  video_id : String
  title : String
  original : Int
  user_id : String
  time_submitted : Int
  uuid : String
  hashed_video_id : String
deriving DecidableEq

/-- Raw `csv_data::TitleVotes` row. -/
structure CsvTitleVotes where
  uuid : String
  votes : Int
  locked : Int
  shadow_hidden : Int
  verification : Int
  downvotes : Int
  removed : Int
deriving DecidableEq

/-- Raw `csv_data::Thumbnail` row. -/
structure CsvThumbnail where
  video_id : String
  original : Int
  user_id : String
  time_submitted : Int
  uuid : String
  hashed_video_id : String
deriving DecidableEq

/-- Raw `csv_data::ThumbnailTimestamps` row. -/
structure CsvThumbnailTimestamps where
  uuid : String
  timestamp : ℚ
deriving DecidableEq

/-- Raw `csv_data::ThumbnailVotes` row. -/
structure CsvThumbnailVotes where
  uuid : String
  votes : Int
  locked : Int
  shadow_hidden : Int
  downvotes : Int
  removed : Int
deriving DecidableEq

/-- The `ParseErrorKind` variants raised by the merge stage. -/
inductive MergeError where
  | invalidValue (uuid field : String) (value : Int)
  | mismatchedUUIDs (structName uuidMain uuidStruct : String)
  | missingSubobject (structName uuid : String)
deriving DecidableEq

/-- Embeds the `intbool!` macro: maps `falseint`/`trueint` to a boolean and any
other value to an `InvalidValue` error. -/
def intbool (uuid field : String) (v falseint trueint : Int) : Except MergeError Bool :=
  if v = falseint then Except.ok false
  else if v = trueint then Except.ok true
  else Except.error (MergeError.invalidValue uuid field v)

/-- Embeds `csv_data::Title::try_merge` (`dearrow-parser/src/lib.rs` lines
698-724).  The outer `Option` is the panic layer: `none` models the panic of
the slice `&self.hashed_video_id[..4]`, which in the source is evaluated after
the UUID comparison and the `intbool!` flag conversions. -/
def tryMergeTitle (t : CsvTitle) (votes : CsvTitleVotes) : Option (Except MergeError Title) :=
  if t.uuid ≠ votes.uuid then
    some (Except.error (MergeError.mismatchedUUIDs "TitleVotes" t.uuid votes.uuid))
  else
    match (do
      let original ← intbool t.uuid "original" t.original 0 1
      let locked ← intbool t.uuid "locked" votes.locked 0 1
      let shadowHidden ← intbool t.uuid "shadow_hidden" votes.shadow_hidden 0 1
      let unverified ← intbool t.uuid "verification" votes.verification 0 (-1)
      let removed ← intbool t.uuid "removed" votes.removed 0 1
      pure (TitleFlags.mk original locked shadowHidden unverified removed) :
        Except MergeError TitleFlags) with
    | Except.error e => some (Except.error e)
    | Except.ok flags =>
      match sliceBytes4 t.hashed_video_id with
      | none => none
      | some pre =>
        some (Except.ok
          { uuid := t.uuid, video_id := t.video_id, title := t.title, user_id := t.user_id,
            time_submitted := t.time_submitted, votes := votes.votes,
            downvotes := votes.downvotes, flags := flags,
            hashPfx := (parseU16Hex pre).getD (computeHashPfx t.video_id) })

/-- The guard clause of `Thumbnail::try_merge`: a `MismatchedUUIDs` error when a
timestamps row is present but carries a different UUID. -/
def tsMismatch (t : CsvThumbnail) (timestamps : Option CsvThumbnailTimestamps) :
    Option MergeError :=
  match timestamps with
  | some ts =>
    if t.uuid ≠ ts.uuid then
      some (MergeError.mismatchedUUIDs "ThumbnailTimestamps" t.uuid ts.uuid)
    else none
  | none => none

/-- Embeds `csv_data::Thumbnail::try_merge` (`dearrow-parser/src/lib.rs` lines
662-696), with the same panic layer as `tryMergeTitle`. -/
def tryMergeThumbnail (t : CsvThumbnail) (timestamps : Option CsvThumbnailTimestamps)
    (votes : CsvThumbnailVotes) : Option (Except MergeError Thumbnail) :=
  match tsMismatch t timestamps with
  | some e => some (Except.error e)
  | none =>
    if t.uuid ≠ votes.uuid then
      some (Except.error (MergeError.mismatchedUUIDs "ThumbnailVotes" t.uuid votes.uuid))
    else
      match (do
        let original ← intbool t.uuid "original" t.original 0 1
        let locked ← intbool t.uuid "locked" votes.locked 0 1
        let shadowHidden ← intbool t.uuid "shadow_hidden" votes.shadow_hidden 0 1
        let removed ← intbool t.uuid "removed" votes.removed 0 1
        pure (ThumbnailFlags.mk original locked shadowHidden removed) :
          Except MergeError ThumbnailFlags) with
      | Except.error e => some (Except.error e)
      | Except.ok flags =>
        if flags.original = false ∧ timestamps = none then
          some (Except.error (MergeError.missingSubobject "ThumbnailTimestamps" t.uuid))
        else
          match sliceBytes4 t.hashed_video_id with
          | none => none
          | some pre =>
            some (Except.ok
              { uuid := t.uuid, video_id := t.video_id, user_id := t.user_id,
                time_submitted := t.time_submitted,
                timestamp := timestamps.map CsvThumbnailTimestamps.timestamp,
                votes := votes.votes, downvotes := votes.downvotes, flags := flags,
                hashPfx := (parseU16Hex pre).getD (computeHashPfx t.video_id) })

/-- Raw `csv_data::SponsorTime` row (`dearrow-parser/src/lib.rs` lines 596-617). -/
structure SponsorTimeRow where
  video_id : String
  start_time : ℚ
  end_time : ℚ
  video_duration : ℚ
  votes : Int
  shadow_hidden : Int
  hidden : Int
  category : String
  action_type : String
  hashed_video_id : String
  time_submitted : Int
deriving DecidableEq

/-- `csv_data::TrimmedSponsorTime`: the part of a contributing row kept for the
segment reduction. -/
structure TrimmedSponsorTime where
  video_id : String
  start_time : ℚ
  end_time : ℚ
deriving DecidableEq

/-- `csv_data::VideoDuration`: the part of a contributing row kept for the
canonical-duration reconciliation. -/
structure VideoDurationRec where
  video_id : String
  time_submitted : Int
  video_duration : ℚ
  has_outro : Bool
deriving DecidableEq

/-- Embeds `csv_data::SponsorTime::filter_and_split` (`dearrow-parser/src/lib.rs`
lines 726-752).  The outer `Option` is the panic layer of the
`&self.hashed_video_id[..4]` slice (computed before the filter); the inner
`Option` is the source's own return value (`none` = row filtered out). -/
def filter_and_split (s : SponsorTimeRow) :
    Option (Option (Nat × VideoDurationRec × TrimmedSponsorTime)) :=
  match sliceBytes4 s.hashed_video_id with
  | none => none
  | some pre =>
    some
      (if -2 < s.votes ∧ s.shadow_hidden = 0 ∧ s.hidden = 0 ∧ s.action_type = "skip" then
        some ((parseU16Hex pre).getD (computeHashPfx s.video_id),
          { video_id := s.video_id, time_submitted := s.time_submitted,
            video_duration := s.video_duration, has_outro := s.category == "outro" },
          { video_id := s.video_id, start_time := s.start_time, end_time := s.end_time })
      else none)

/-- The `VideoDuration` part of `filter_and_split`, when the row contributes. -/
def contributingDuration (s : SponsorTimeRow) : Option VideoDurationRec :=
  match filter_and_split s with
  | some (some (_, dur, _)) => some dur
  | _ => none

/-- Embeds the `and_modify` closure of `DearrowDB::load` (`dearrow-parser/src/lib.rs`
lines 408-416): `d` is the stored record, `incoming` the newly read row; the row
with the strictly later `time_submitted` wins and `has_outro` flags are OR-ed. -/
def updateDuration (d incoming : VideoDurationRec) : VideoDurationRec :=
  if d.time_submitted < incoming.time_submitted then
    { incoming with has_outro := incoming.has_outro || d.has_outro }
  else
    { d with has_outro := d.has_outro || incoming.has_outro }

/-- The per-video `entry(..).and_modify(..).or_insert(..)` accumulation over the
rows of one video, in read order. -/
def foldDurations : List VideoDurationRec → Option VideoDurationRec
  | [] => none
  | d :: ds => some (ds.foldl updateDuration d)

/-- An uncut interval, both fields fractions of the video duration
(`UncutSegment` in `dearrow-parser/src/lib.rs`). -/
structure UncutSegment where
  offset : ℚ
  length : ℚ
deriving DecidableEq

/-- Embeds one iteration of the segment-reduction loop of `DearrowDB::load`
(`dearrow-parser/src/lib.rs` lines 443-477).  The accumulator is kept in
reverse order: the head is the most recently pushed `UncutSegment`, matching
the source's `uncut_segments.last_mut()`. -/
def reduceStep (d : ℚ) (acc : List UncutSegment) (seg : TrimmedSponsorTime) :
    List UncutSegment :=
  if d ≤ seg.start_time then acc
  else
    match acc with
    | [] =>
      (if seg.end_time ≠ d then
        [({ offset := min seg.end_time d / d, length := 1 - min seg.end_time d / d } :
          UncutSegment)]
      else []) ++
      (if seg.start_time / d ≠ 0 then
        [({ offset := 0, length := seg.start_time / d } : UncutSegment)]
      else [])
    | last :: rest =>
      if min seg.end_time d / d < last.offset then last :: rest
      else if seg.start_time / d < last.offset then
        { offset := min seg.end_time d / d, length := 1 - min seg.end_time d / d } :: rest
      else
        { offset := min seg.end_time d / d, length := 1 - min seg.end_time d / d } ::
          { offset := last.offset, length := seg.start_time / d - last.offset } :: rest

/-- Embeds the post-loop fixup of `DearrowDB::load` (lines 478-485): drop a
trailing `offset == 1` segment, or emit `{0, 1}` when the walk pushed nothing;
the reverse restores forward order. -/
def finalizeUncut (acc : List UncutSegment) : List UncutSegment :=
  match acc with
  | [] => [{ offset := 0, length := 1 }]
  | last :: rest => if last.offset = 1 then rest.reverse else (last :: rest).reverse

/-- Insertion step of the stable sort by `start_time`. -/
def insertSeg (s : TrimmedSponsorTime) : List TrimmedSponsorTime → List TrimmedSponsorTime
  | [] => [s]
  | t :: ts => if s.start_time ≤ t.start_time then s :: t :: ts else t :: insertSeg s ts

/-- Embeds `segments.sort_unstable_by(|a, b| a.start_time.total_cmp(&b.start_time))`
as an insertion sort (the reduction below is proved invariant-preserving for
every input order, so only the sorted output order matters). -/
def sortByStart : List TrimmedSponsorTime → List TrimmedSponsorTime
  | [] => []
  | s :: ss => insertSeg s (sortByStart ss)

/-- The full segment reduction of one video: sort by start time, run the
reduction loop, apply the post-loop fixup. -/
def uncutSegments (d : ℚ) (segs : List TrimmedSponsorTime) : List UncutSegment :=
  finalizeUncut ((sortByStart segs).foldl (reduceStep d) [])

/-- Derived per-video record (`VideoInfo` in `dearrow-parser/src/lib.rs`). -/
structure VideoInfo where
  video_id : String
  video_duration : ℚ
  uncut_segments : List UncutSegment
  has_outro : Bool
deriving DecidableEq

/-- Embeds `max_by(f64::total_cmp)` over the end times: `none` on an empty list. -/
def maxEndTime (l : List TrimmedSponsorTime) : Option ℚ :=
  match l.map TrimmedSponsorTime.end_time with
  | [] => none
  | x :: xs => some (xs.foldl max x)

/-- Embeds the per-video `VideoInfo` construction of `DearrowDB::load`
(`dearrow-parser/src/lib.rs` lines 426-489): the reduction duration falls back
to the maximum end time when the canonical duration is not positive, while the
reported `video_duration` keeps the original value; a missing segments entry
yields the single full-range uncut segment. -/
def mkVideoInfo (dur : VideoDurationRec) (segs : Option (List TrimmedSponsorTime)) :
    Option VideoInfo :=
  let vdOpt : Option ℚ :=
    if 0 < dur.video_duration then some dur.video_duration
    else
      match segs with
      | none => none
      | some l => maxEndTime l
  match vdOpt with
  | none => none
  | some vd =>
    some
      { video_id := dur.video_id
        video_duration := dur.video_duration
        uncut_segments :=
          match segs with
          | none => [{ offset := 0, length := 1 }]
          | some l => uncutSegments vd l
        has_outro := dur.has_outro }

/-- A well-formed uncut segment: within `[0, 1]` with a nonnegative length. -/
def segValid (s : UncutSegment) : Prop :=
  0 ≤ s.offset ∧ 0 ≤ s.length ∧ s.offset + s.length ≤ 1

instance (s : UncutSegment) : Decidable (segValid s) := by
  unfold segValid; infer_instance

/-- The spec invariant on an uncut-segment list: pairwise disjoint in order
(each segment ends before the next begins) and every segment well formed. -/
def validSegments (l : List UncutSegment) : Prop :=
  l.Pairwise (fun x y => x.offset + x.length ≤ y.offset) ∧ ∀ s ∈ l, segValid s

instance (l : List UncutSegment) : Decidable (validSegments l) := by
  unfold validSegments; infer_instance

/-- Embeds the walk of `get_random_time_for_video`
(`dearrow-browser-server/src/sbserver_emulation.rs` lines 124-130): find the
uncut segment containing the scaled draw, add its offset, or fall through with
the residue when no segment contains it. -/
def walkSegments : ℚ → List UncutSegment → ℚ
  | r, [] => r
  | r, s :: rest => if r ≤ s.length then r + s.offset else walkSegments (r - s.length) rest

/-- Embeds `get_random_time_for_video`
(`dearrow-browser-server/src/sbserver_emulation.rs` lines 110-138).  The Alea
draw (the `alea_js` crate is external; the spec specifies one float in `[0, 1)`
seeded from the video id) is passed in as `draw`. -/
def get_random_time_for_video (draw : ℚ) (video_info : Option VideoInfo) : ℚ :=
  match video_info with
  | some info =>
    let r0 := if ¬info.has_outro ∧ 9 / 10 < draw then draw - 9 / 10 else draw
    walkSegments (r0 * (info.uncut_segments.map UncutSegment.length).sum) info.uncut_segments
  | none => if 9 / 10 < draw then draw - 9 / 10 else draw

/-- Modelled from the spec: the walk of claim C2's wording, with every length and
offset multiplied by `video_duration`; for refinement comparison only. -/
def walkSegmentsClaim : ℚ → List UncutSegment → ℚ → ℚ
  | r, [], _ => r
  | r, s :: rest, d =>
    if r ≤ s.length * d then r + s.offset * d else walkSegmentsClaim (r - s.length * d) rest d

/-- Modelled from the spec: claim C2's wording of the random-time computation —
scale by the sum of uncut-segment lengths multiplied by `video_duration` and map
into the containing segment by adding `offset` multiplied by `video_duration`,
yielding seconds; for refinement comparison only. -/
def claimRandomTime (draw : ℚ) (info : VideoInfo) : ℚ :=
  let r0 := if ¬info.has_outro ∧ 9 / 10 < draw then draw - 9 / 10 else draw
  walkSegmentsClaim (r0 * ((info.uncut_segments.map UncutSegment.length).sum * info.video_duration))
    info.uncut_segments info.video_duration

/-- A shared string handle: `ptr` models the `Arc` allocation address, `val` the
string contents.  Rust guarantees distinct live allocations have distinct
addresses; theorems take that as the `ptr`-functionality hypothesis. -/
structure ArcStr where
  ptr : Nat
  val : String
deriving DecidableEq

/-- Embeds `StringSet::dedupe_arc` (`dearrow-parser/src/lib.rs` lines 91-97): if a
byte-equal string is in the set, the caller's handle is replaced by the stored
one; otherwise the caller's handle is inserted.  The `HashSet` is modelled as a
list keyed by `val`. -/
def dedupe_arc (set : List ArcStr) (r : ArcStr) : ArcStr × List ArcStr :=
  match set.find? (fun s => s.val == r.val) with
  | some s => (s, set)
  | none => (r, r :: set)

/-- Threads a sequence of `dedupe_arc` calls through one `StringSet`, returning
the handles produced and the final set. -/
def internAll (set : List ArcStr) : List ArcStr → List ArcStr × List ArcStr
  | [] => ([], set)
  | r :: rs =>
    let p := dedupe_arc set r
    let q := internAll p.2 rs
    (p.1 :: q.1, q.2)

/-- The server's `DatabaseState` (`dearrow-browser-server/src/state.rs`), with the
snapshot payload generic: `do_reload` never inspects it.  The `StringSet` swap
performed alongside the snapshot swap is outside the modelled state. -/
structure DatabaseState (α : Type) where
  db : α
  errors : List String
  last_updated : Int
  last_modified : Int
  updating_now : Bool
deriving DecidableEq

/-- Embeds `do_reload` (`dearrow-browser-server/src/routes.rs` lines 58-82).
`load` is the outcome of `DearrowDB::load_dir` (filesystem access is external):
a fatal error propagates through `?` with `updating_now` left `true`; a success
publishes the new snapshot, stamps the clock values and clears `updating_now`. -/
def do_reload (st : DatabaseState α) (load : Except String (α × List String))
    (now mtime : Int) : Except String Unit × DatabaseState α :=
  if st.updating_now then (Except.error "Already updating!", st)
  else
    match load with
    | Except.error e => (Except.error e, { st with updating_now := true })
    | Except.ok (db, errors) =>
      (Except.ok (),
        { db := db, errors := errors, last_updated := now, last_modified := mtime,
          updating_now := false })

/-- Embeds `request_reload` (`dearrow-browser-server/src/routes.rs` lines 84-99):
404 without auth, 403 on digest mismatch; otherwise the handler matches the
`spawn_blocking` join result with `Ok(..)` — any completed `do_reload`, whatever
its inner `Result`, yields HTTP 200 (the join errs only if the task panics,
which the embedded `do_reload` cannot). -/
def request_reload (auth : Option String) (secret : String) (st : DatabaseState α)
    (load : Except String (α × List String)) (now mtime : Int) : Nat × DatabaseState α :=
  match auth with
  | none => (404, st)
  | some provided =>
    if sha256Words (utf8Bytes provided) ≠ sha256Words (utf8Bytes secret) then (403, st)
    else
      match do_reload st load now mtime with
      | (_, st2) => (200, st2)

/-- Runs a list of further reload attempts (each with its own load outcome and
clock readings) from a given state. -/
def reloadAttempts (st : DatabaseState α) :
    List (Except String (α × List String) × Int × Int) →
      List (Except String Unit) × DatabaseState α
  | [] => ([], st)
  | (load, now, mtime) :: rest =>
    let p := do_reload st load now mtime
    let q := reloadAttempts p.2 rest
    (p.1 :: q.1, q.2)

/-- Embeds `get_random_titles` (`dearrow-browser-server/src/routes.rs` lines
107-114): `titles_by_time_submitted.iter().rev().take(20)`.  The input list is
the snapshot's title sequence; the spec defines it as sorted ascending by
`time_submitted` (the `titles_by_time_submitted` field itself is not under
`src/`), which the theorems take as a hypothesis. -/
def getRandomTitles (titles_by_time_submitted : List Title) : List Title :=
  titles_by_time_submitted.reverse.take 20

/-- Modelled from the spec: claim C10's wording — the 50 newest titles; for
refinement comparison only. -/
def claimRandomTitles (titles_by_time_submitted : List Title) : List Title :=
  titles_by_time_submitted.reverse.take 50

/-- A title record with all-default fields except the submission time, used for
concrete inputs. -/
def mkTitleAt (n : Int) : Title :=
  { uuid := "u", video_id := "v", title := "t", user_id := "usr", time_submitted := n,
    votes := 0, downvotes := 0,
    flags := { original := false, locked := false, shadowHidden := false,
               unverified := false, removed := false },
    hashPfx := 0 }

/-- Twenty-one titles with ascending submission times. -/
def titles21 : List Title := (List.range 21).map (fun n => mkTitleAt n)


/-- Invariant of the reduction loop's accumulator, which is kept in reverse
order (head = most recently pushed): each earlier segment ends no later than
any later segment begins, and every segment is well formed. -/
def revInv (acc : List UncutSegment) : Prop :=
  acc.Pairwise (fun x y => y.offset + y.length ≤ x.offset) ∧ ∀ s ∈ acc, segValid s

/-- No two entries of a `StringSet` hold the same string value (the `HashSet`
is keyed by value, and `dedupe_arc` inserts only on lookup failure). -/
def valUniq (l : List ArcStr) : Prop := ∀ a ∈ l, ∀ b ∈ l, a.val = b.val → a = b

instance (l : List ArcStr) : Decidable (valUniq l) := by
  unfold valUniq; infer_instance

/-- Rust's memory model for live `Arc` allocations: equal addresses imply equal
contents. -/
def ptrFun (l : List ArcStr) : Prop := ∀ a ∈ l, ∀ b ∈ l, a.ptr = b.ptr → a.val = b.val

instance (l : List ArcStr) : Decidable (ptrFun l) := by
  unfold ptrFun; infer_instance

/-! ## Claim C1: reduction of a single full-cover segment -/

/-- C1 (counterexample): a single `(0, D)` segment over duration `D = 100` does
not yield an empty uncut list — the post-walk fallback emits the full-range
uncut segment `{0, 1}` instead. -/
theorem c1_counterexample :
    uncutSegments 100 [{ video_id := "v", start_time := 0, end_time := 100 }] =
      [{ offset := 0, length := 1 }] ∧
    [({ offset := 0, length := 1 } : UncutSegment)] ≠ ([] : List UncutSegment) := by
  constructor
  · norm_num [uncutSegments, sortByStart, insertSeg, reduceStep, finalizeUncut]
  · simp

/-- C1 (amended): for every positive duration `d`, reducing the single segment
`(0, d)` yields `[{offset 0, length 1}]`: the walk emits nothing, and the
post-walk fallback then pushes the full-range uncut segment. -/
theorem uncut_full_cover (v : String) (d : ℚ) (hd : 0 < d) :
    uncutSegments d [{ video_id := v, start_time := 0, end_time := d }] =
      [{ offset := 0, length := 1 }] := by
  have h1 : ¬(d ≤ (0 : ℚ)) := not_le.mpr hd
  simp [uncutSegments, sortByStart, insertSeg, reduceStep, finalizeUncut, h1]

/-- C1 (witness): `uncut_full_cover` evaluated at duration 100. -/
theorem uncut_full_cover_witness :
    (0 : ℚ) < 100 ∧
    uncutSegments 100 [{ video_id := "v", start_time := 0, end_time := 100 }] =
      [{ offset := 0, length := 1 }] :=
  ⟨by norm_num, uncut_full_cover "v" 100 (by norm_num)⟩

/-! ## Claim C9: merge on a short `hashedVideoID` -/

/-- C9: evaluating the merge step at rows whose `hashedVideoID` is two bytes
long: both `Thumbnail::try_merge` and `SponsorTime::filter_and_split` hit the
panic of the slice `&hashed_video_id[..4]` (modelled as `none`) instead of
returning a merged record or a recorded error. -/
theorem c9_short_hash_panics :
    tryMergeThumbnail
      { video_id := "v", original := 1, user_id := "u", time_submitted := 0, uuid := "id",
        hashed_video_id := "ab" }
      none
      { uuid := "id", votes := 0, locked := 0, shadow_hidden := 0, downvotes := 0,
        removed := 0 } = none ∧
    filter_and_split
      { video_id := "v", start_time := 0, end_time := 1, video_duration := 10, votes := 0,
        shadow_hidden := 0, hidden := 0, category := "sponsor", action_type := "skip",
        hashed_video_id := "ab", time_submitted := 0 } = none := by
  constructor <;> rfl

/-! ## Claim C3: HTTP status of a failed reload -/

/-- C3: with correct auth and a reload already in flight (`updating_now` set),
`do_reload` fails with `Already updating!`, yet `request_reload` answers
HTTP 200 — the handler matches only the `spawn_blocking` join result and
discards the inner failure, so a failed reload never produces the 500 the
claim requires. -/
theorem c3_failed_reload_returns_200 :
    (do_reload (DatabaseState.mk (7 : Nat) [] 0 0 true) (Except.ok (8, [])) 1 1).1 =
      Except.error "Already updating!" ∧
    (request_reload (some "hunter2") "hunter2" (DatabaseState.mk (7 : Nat) [] 0 0 true)
        (Except.ok (8, [])) 1 1).1 = 200 := by
  constructor
  · rfl
  · simp [request_reload, do_reload]

/-! ## Claim C10: the `/titles` route -/

/-- C10 (counterexample): on a snapshot of 21 titles, `get_random_titles`
returns 20 titles, not the 50 newest (which would be all 21). -/
theorem c10_counterexample : getRandomTitles titles21 ≠ claimRandomTitles titles21 := by
  decide

/-- C10 (amended): `GET /titles` returns the 20 newest titles, newest first by
`time_submitted`: on an ascending-sorted snapshot list it returns the reversed
20-element prefix, sorted descending, and every returned title is at least as
new as every title not returned. -/
theorem get_random_titles_newest (l : List Title)
    (hs : l.Pairwise (fun a b => a.time_submitted ≤ b.time_submitted)) :
    getRandomTitles l = l.reverse.take 20 ∧
    (getRandomTitles l).length = min 20 l.length ∧
    (getRandomTitles l).Pairwise (fun a b => b.time_submitted ≤ a.time_submitted) ∧
    ∀ x ∈ getRandomTitles l, ∀ y ∈ l.reverse.drop 20, y.time_submitted ≤ x.time_submitted := by
  have hrev : l.reverse.Pairwise (fun a b => b.time_submitted ≤ a.time_submitted) :=
    List.pairwise_reverse.mpr hs
  refine ⟨rfl, ?_, ?_, ?_⟩
  · simp [getRandomTitles]
  · exact List.Pairwise.sublist (List.take_sublist _ _) hrev
  · have hsplit : (l.reverse.take 20 ++ l.reverse.drop 20).Pairwise
        (fun a b => b.time_submitted ≤ a.time_submitted) := by
      rw [List.take_append_drop]; exact hrev
    exact fun x hx y hy => (List.pairwise_append.mp hsplit).2.2 x hx y hy

/-- C10 (witness): `get_random_titles_newest` evaluated on the 21-title snapshot. -/
theorem get_random_titles_newest_witness :
    getRandomTitles titles21 = titles21.reverse.take 20 ∧
    (getRandomTitles titles21).length = min 20 titles21.length ∧
    (getRandomTitles titles21).Pairwise (fun a b => b.time_submitted ≤ a.time_submitted) ∧
    ∀ x ∈ getRandomTitles titles21, ∀ y ∈ titles21.reverse.drop 20,
      y.time_submitted ≤ x.time_submitted :=
  get_random_titles_newest titles21 (by decide)

/-! ## Claim C5: provenance of `hash_prefix` -/

/-- C5 (counterexample): it is not the case that every merged title's
`hash_prefix` equals the first 16 bits of SHA-256 of its video id regardless of
the row's `hashedVideoID`: two rows for video id `"a"` with hex-parseable
`hashedVideoID` fields `"0000"` and `"ffff"` merge to prefixes 0 and 65535,
which cannot both equal the SHA-256 prefix. -/
theorem c5_counterexample :
    ¬(∀ (t : CsvTitle) (votes : CsvTitleVotes) (m : Title),
        tryMergeTitle t votes = some (Except.ok m) →
        m.hashPfx = computeHashPfx t.video_id) := by
  intro h
  have h1 := h
    { video_id := "a", title := "t", original := 0, user_id := "u", time_submitted := 0,
      uuid := "id", hashed_video_id := "0000" }
    { uuid := "id", votes := 0, locked := 0, shadow_hidden := 0, verification := 0,
      downvotes := 0, removed := 0 }
    { uuid := "id", video_id := "a", title := "t", user_id := "u", time_submitted := 0,
      votes := 0, downvotes := 0,
      flags := { original := false, locked := false, shadowHidden := false,
                 unverified := false, removed := false },
      hashPfx := 0 }
    (by rfl)
  have h2 := h
    { video_id := "a", title := "t", original := 0, user_id := "u", time_submitted := 0,
      uuid := "id", hashed_video_id := "ffff" }
    { uuid := "id", votes := 0, locked := 0, shadow_hidden := 0, verification := 0,
      downvotes := 0, removed := 0 }
    { uuid := "id", video_id := "a", title := "t", user_id := "u", time_submitted := 0,
      votes := 0, downvotes := 0,
      flags := { original := false, locked := false, shadowHidden := false,
                 unverified := false, removed := false },
      hashPfx := 65535 }
    (by rfl)
  simp only at h1 h2
  exact absurd (h1.trans h2.symm) (by decide)

/-- C5 (amended): for every merged `Title` and `Thumbnail`, `hash_prefix` equals
the hex-parse of the first four bytes of the row's `hashedVideoID` when that
parse succeeds, and only otherwise the first 16 bits of SHA-256 of the video
id — i.e. the stored value is `(parseU16Hex pre).getD (computeHashPfx video_id)`
for the sliced prefix `pre`. -/
theorem merged_hashPfx_from_row :
    (∀ (t : CsvTitle) (votes : CsvTitleVotes) (m : Title),
        tryMergeTitle t votes = some (Except.ok m) →
        ∃ pre, sliceBytes4 t.hashed_video_id = some pre ∧
          m.hashPfx = (parseU16Hex pre).getD (computeHashPfx t.video_id)) ∧
    (∀ (t : CsvThumbnail) (ts : Option CsvThumbnailTimestamps) (votes : CsvThumbnailVotes)
        (m : Thumbnail),
        tryMergeThumbnail t ts votes = some (Except.ok m) →
        ∃ pre, sliceBytes4 t.hashed_video_id = some pre ∧
          m.hashPfx = (parseU16Hex pre).getD (computeHashPfx t.video_id)) := by
  constructor
  · intro t votes m h
    unfold tryMergeTitle at h
    split at h
    · simp at h
    · split at h
      · simp at h
      · split at h
        · exact absurd h (by simp)
        · rename_i pre hpre
          refine ⟨pre, hpre, ?_⟩
          simp only [Option.some.injEq, Except.ok.injEq] at h
          rw [← h]
  · intro t ts votes m h
    unfold tryMergeThumbnail at h
    split at h
    · simp at h
    · split at h
      · simp at h
      · split at h
        · simp at h
        · split at h
          · simp at h
          · split at h
            · exact absurd h (by simp)
            · rename_i pre hpre
              refine ⟨pre, hpre, ?_⟩
              simp only [Option.some.injEq, Except.ok.injEq] at h
              rw [← h]

/-- C5 (witness): `merged_hashPfx_from_row` evaluated on a concrete title row
whose `hashedVideoID` is `"ffff"`. -/
theorem merged_hashPfx_from_row_witness :
    ∃ pre, sliceBytes4 "ffff" = some pre ∧
      (65535 : Nat) = (parseU16Hex pre).getD (computeHashPfx "a") :=
  merged_hashPfx_from_row.1
    { video_id := "a", title := "t", original := 0, user_id := "u", time_submitted := 0,
      uuid := "id", hashed_video_id := "ffff" }
    { uuid := "id", votes := 0, locked := 0, shadow_hidden := 0, verification := 0,
      downvotes := 0, removed := 0 }
    { uuid := "id", video_id := "a", title := "t", user_id := "u", time_submitted := 0,
      votes := 0, downvotes := 0,
      flags := { original := false, locked := false, shadowHidden := false,
                 unverified := false, removed := false },
      hashPfx := 65535 }
    (by rfl)


/-! ## Claim C6: canonical duration and outro reconciliation -/

/-- One `updateDuration` step: the kept record has the later `time_submitted`
(the stored one on ties), OR-ed outro flags, and its duration and time come
from one of the two operands. -/
theorem updateDuration_spec (a b : VideoDurationRec) :
    (updateDuration a b).time_submitted = max a.time_submitted b.time_submitted ∧
    (updateDuration a b).has_outro = (a.has_outro || b.has_outro) ∧
    ((updateDuration a b).video_duration = a.video_duration ∧
        (updateDuration a b).time_submitted = a.time_submitted ∨
      (updateDuration a b).video_duration = b.video_duration ∧
        (updateDuration a b).time_submitted = b.time_submitted) := by
  unfold updateDuration
  split
  · rename_i hlt
    exact ⟨by simp [max_eq_right hlt.le], by simp [Bool.or_comm], Or.inr ⟨rfl, rfl⟩⟩
  · rename_i hge
    exact ⟨by simp [max_eq_left (not_lt.mp hge)], by simp, Or.inl ⟨rfl, rfl⟩⟩

/-- Fold characterization of the per-video duration accumulation: the result's
`time_submitted` bounds the accumulator and every folded row, `has_outro` is
the OR over the accumulator and all rows, and the duration/time pair comes from
the accumulator or one of the rows. -/
theorem foldl_updateDuration_spec (ds : List VideoDurationRec) (acc : VideoDurationRec) :
    (acc.time_submitted ≤ (ds.foldl updateDuration acc).time_submitted ∧
      ∀ x ∈ ds, x.time_submitted ≤ (ds.foldl updateDuration acc).time_submitted) ∧
    (ds.foldl updateDuration acc).has_outro =
      (acc.has_outro || ds.any VideoDurationRec.has_outro) ∧
    ((ds.foldl updateDuration acc).video_duration = acc.video_duration ∧
        (ds.foldl updateDuration acc).time_submitted = acc.time_submitted ∨
      ∃ x ∈ ds, (ds.foldl updateDuration acc).video_duration = x.video_duration ∧
        (ds.foldl updateDuration acc).time_submitted = x.time_submitted) := by
  induction ds generalizing acc with
  | nil => exact ⟨⟨le_refl _, by simp⟩, by simp, Or.inl ⟨rfl, rfl⟩⟩
  | cons b t ih =>
    obtain ⟨⟨ihacc, ihmem⟩, ihoutro, ihsrc⟩ := ih (updateDuration acc b)
    obtain ⟨hstime, hsoutro, hssrc⟩ := updateDuration_spec acc b
    simp only [List.foldl_cons]
    refine ⟨⟨le_trans (by rw [hstime]; exact le_max_left _ _) ihacc, ?_⟩, ?_, ?_⟩
    · intro x hx
      rcases List.mem_cons.mp hx with rfl | hx
      · exact le_trans (by rw [hstime]; exact le_max_right _ _) ihacc
      · exact ihmem x hx
    · rw [ihoutro, hsoutro, List.any_cons, Bool.or_assoc]
    · rcases ihsrc with ⟨hd, ht⟩ | ⟨x, hx, hd, ht⟩
      · rcases hssrc with ⟨hd2, ht2⟩ | ⟨hd2, ht2⟩
        · exact Or.inl ⟨hd.trans hd2, ht.trans ht2⟩
        · exact Or.inr ⟨b, List.mem_cons_self b t, hd.trans hd2, ht.trans ht2⟩
      · exact Or.inr ⟨x, List.mem_cons_of_mem b hx, hd, ht⟩

/-- C6 (counterexample): two contributing rows for the same video that tie on
`time_submitted` but disagree on `videoDuration` give different reconciliation
results in the two read orders — the outcome is not independent of read order,
and "the row with the latest `time_submitted`" is not well defined on ties. -/
theorem c6_counterexample :
    foldDurations
        (([({ video_id := "v", start_time := 10, end_time := 20, video_duration := 100,
              votes := 0, shadow_hidden := 0, hidden := 0, category := "sponsor",
              action_type := "skip", hashed_video_id := "0000", time_submitted := 5 } :
              SponsorTimeRow),
            { video_id := "v", start_time := 10, end_time := 20, video_duration := 200,
              votes := 0, shadow_hidden := 0, hidden := 0, category := "sponsor",
              action_type := "skip", hashed_video_id := "0000", time_submitted := 5 }] :
          List SponsorTimeRow).filterMap contributingDuration) ≠
      foldDurations
        (([({ video_id := "v", start_time := 10, end_time := 20, video_duration := 200,
              votes := 0, shadow_hidden := 0, hidden := 0, category := "sponsor",
              action_type := "skip", hashed_video_id := "0000", time_submitted := 5 } :
              SponsorTimeRow),
            { video_id := "v", start_time := 10, end_time := 20, video_duration := 100,
              votes := 0, shadow_hidden := 0, hidden := 0, category := "sponsor",
              action_type := "skip", hashed_video_id := "0000", time_submitted := 5 }] :
          List SponsorTimeRow).filterMap contributingDuration) := by
  decide

/-- C6 (amended): a sponsor row contributes exactly when
`votes > -2 ∧ shadowHidden = 0 ∧ hidden = 0 ∧ actionType = "skip"` (given its
`hashedVideoID` survives slicing), and the per-video reconciliation keeps a
duration/time pair taken from a contributing row whose `time_submitted` is
maximal (the earliest-read such row on ties, so the result is order-independent
whenever a single row attains the maximum), while `has_outro` is the OR of
`category == "outro"` over all contributing rows in any order. -/
theorem sponsor_duration_reconciliation (rows : List SponsorTimeRow)
    (d : VideoDurationRec) (ds : List VideoDurationRec)
    (hsplit : rows.filterMap contributingDuration = d :: ds) :
    (∀ s ∈ rows, (sliceBytes4 s.hashed_video_id).isSome = true →
      ((contributingDuration s).isSome = true ↔
        (-2 < s.votes ∧ s.shadow_hidden = 0 ∧ s.hidden = 0 ∧ s.action_type = "skip"))) ∧
    ∃ r, foldDurations (d :: ds) = some r ∧
      (∀ x ∈ d :: ds, x.time_submitted ≤ r.time_submitted) ∧
      r.has_outro = (d :: ds).any VideoDurationRec.has_outro ∧
      ∃ x ∈ d :: ds, r.video_duration = x.video_duration ∧
        r.time_submitted = x.time_submitted := by
  constructor
  · intro s _ hslice
    rcases Option.isSome_iff_exists.mp hslice with ⟨pre, hpre⟩
    by_cases hc : -2 < s.votes ∧ s.shadow_hidden = 0 ∧ s.hidden = 0 ∧ s.action_type = "skip"
    · simp [contributingDuration, filter_and_split, hpre, hc]
    · simp [contributingDuration, filter_and_split, hpre, hc]
  · obtain ⟨⟨hacc, hmem⟩, houtro, hsrc⟩ := foldl_updateDuration_spec ds d
    refine ⟨ds.foldl updateDuration d, rfl, ?_, ?_, ?_⟩
    · intro x hx
      rcases List.mem_cons.mp hx with rfl | hx
      · exact hacc
      · exact hmem x hx
    · rw [houtro, List.any_cons]
    · rcases hsrc with ⟨hd, ht⟩ | ⟨x, hx, hd, ht⟩
      · exact ⟨d, List.mem_cons_self d ds, hd, ht⟩
      · exact ⟨x, List.mem_cons_of_mem d hx, hd, ht⟩

/-- C6 (witness): `sponsor_duration_reconciliation` evaluated on a single
contributing outro row. -/
theorem sponsor_duration_reconciliation_witness :
    (∀ s ∈ [({ video_id := "v", start_time := 10, end_time := 20, video_duration := 100,
               votes := 5, shadow_hidden := 0, hidden := 0, category := "outro",
               action_type := "skip", hashed_video_id := "0000", time_submitted := 7 } :
               SponsorTimeRow)],
        (sliceBytes4 s.hashed_video_id).isSome = true →
      ((contributingDuration s).isSome = true ↔
        (-2 < s.votes ∧ s.shadow_hidden = 0 ∧ s.hidden = 0 ∧ s.action_type = "skip"))) ∧
    ∃ r, foldDurations [({ video_id := "v", time_submitted := 7, video_duration := 100,
                           has_outro := true } : VideoDurationRec)] = some r ∧
      (∀ x ∈ [({ video_id := "v", time_submitted := 7, video_duration := 100,
                 has_outro := true } : VideoDurationRec)],
        x.time_submitted ≤ r.time_submitted) ∧
      r.has_outro = ([({ video_id := "v", time_submitted := 7, video_duration := 100,
                         has_outro := true } : VideoDurationRec)]).any
          VideoDurationRec.has_outro ∧
      ∃ x ∈ [({ video_id := "v", time_submitted := 7, video_duration := 100,
                has_outro := true } : VideoDurationRec)],
        r.video_duration = x.video_duration ∧ r.time_submitted = x.time_submitted :=
  sponsor_duration_reconciliation
    [{ video_id := "v", start_time := 10, end_time := 20, video_duration := 100,
       votes := 5, shadow_hidden := 0, hidden := 0, category := "outro",
       action_type := "skip", hashed_video_id := "0000", time_submitted := 7 }]
    { video_id := "v", time_submitted := 7, video_duration := 100, has_outro := true }
    [] (by decide)


/-! ## Claim C7: interning gives pointer equality iff byte equality -/

/-- `dedupe_arc` never removes set entries. -/
theorem dedupe_arc_sub (set : List ArcStr) (r : ArcStr) :
    ∀ x ∈ set, x ∈ (dedupe_arc set r).2 := by
  intro x hx
  unfold dedupe_arc
  split
  · exact hx
  · exact List.mem_cons_of_mem _ hx

/-- The handle returned by `dedupe_arc` is in the resulting set. -/
theorem dedupe_arc_mem_out (set : List ArcStr) (r : ArcStr) :
    (dedupe_arc set r).1 ∈ (dedupe_arc set r).2 := by
  unfold dedupe_arc
  split
  · rename_i s hs
    exact List.mem_of_find?_eq_some hs
  · exact List.mem_cons_self _ _

/-- Every entry of the set after `dedupe_arc` was in the set before or is the
interned handle. -/
theorem dedupe_arc_sources (set : List ArcStr) (r : ArcStr) :
    ∀ x ∈ (dedupe_arc set r).2, x ∈ set ∨ x = r := by
  intro x hx
  unfold dedupe_arc at hx
  split at hx
  · exact Or.inl hx
  · rcases List.mem_cons.mp hx with rfl | hx
    · exact Or.inr rfl
    · exact Or.inl hx

/-- `dedupe_arc` preserves value-uniqueness of the set. -/
theorem dedupe_arc_valUniq (set : List ArcStr) (r : ArcStr) (h : valUniq set) :
    valUniq (dedupe_arc set r).2 := by
  rcases hfind : set.find? (fun s => s.val == r.val) with _ | s
  · have hres : (dedupe_arc set r).2 = r :: set := by simp [dedupe_arc, hfind]
    have hnotin : ∀ x ∈ set, x.val ≠ r.val := by
      intro x hx
      have := List.find?_eq_none.mp hfind x hx
      simpa using this
    rw [hres]
    intro a ha b hb hv
    rcases List.mem_cons.mp ha with rfl | ha2
    · rcases List.mem_cons.mp hb with rfl | hb2
      · rfl
      · exact absurd hv.symm (hnotin b hb2)
    · rcases List.mem_cons.mp hb with rfl | hb2
      · exact absurd hv (hnotin a ha2)
      · exact h a ha2 b hb2 hv
  · have hres : (dedupe_arc set r).2 = set := by simp [dedupe_arc, hfind]
    rw [hres]
    exact h

/-- `internAll` never removes set entries. -/
theorem internAll_set_mono (rs : List ArcStr) (set : List ArcStr) :
    ∀ x ∈ set, x ∈ (internAll set rs).2 := by
  induction rs generalizing set with
  | nil => intro x hx; exact hx
  | cons r rs ih =>
    intro x hx
    exact ih (dedupe_arc set r).2 x (dedupe_arc_sub set r x hx)

/-- Every entry of the final set came from the initial set or the inputs. -/
theorem internAll_sources (rs : List ArcStr) (set : List ArcStr) :
    ∀ x ∈ (internAll set rs).2, x ∈ set ∨ x ∈ rs := by
  induction rs generalizing set with
  | nil => intro x hx; exact Or.inl hx
  | cons r rs ih =>
    intro x hx
    rcases ih (dedupe_arc set r).2 x hx with hx2 | hx2
    · rcases dedupe_arc_sources set r x hx2 with hx3 | rfl
      · exact Or.inl hx3
      · exact Or.inr (List.mem_cons_self _ _)
    · exact Or.inr (List.mem_cons_of_mem _ hx2)

/-- `internAll` preserves value-uniqueness. -/
theorem internAll_valUniq (rs : List ArcStr) (set : List ArcStr) (h : valUniq set) :
    valUniq (internAll set rs).2 := by
  induction rs generalizing set with
  | nil => exact h
  | cons r rs ih => exact ih (dedupe_arc set r).2 (dedupe_arc_valUniq set r h)

/-- Every handle returned by `internAll` is in the final set. -/
theorem internAll_outputs_mem (rs : List ArcStr) (set : List ArcStr) :
    ∀ y ∈ (internAll set rs).1, y ∈ (internAll set rs).2 := by
  induction rs generalizing set with
  | nil => intro y hy; simp [internAll] at hy
  | cons r rs ih =>
    intro y hy
    rcases List.mem_cons.mp hy with rfl | hy
    · exact internAll_set_mono rs (dedupe_arc set r).2 _ (dedupe_arc_mem_out set r)
    · exact ih (dedupe_arc set r).2 y hy

/-- C7: after any sequence of `dedupe_arc` calls threading one `StringSet`
(starting from a value-unique set, with the Rust guarantee that equal pointers
among the initial set and the inputs carry equal strings), any two returned
handles are pointer-equal iff their strings are byte-equal. -/
theorem intern_ptr_eq_iff_val_eq (set₀ inputs : List ArcStr)
    (huniq : valUniq set₀) (hptr : ptrFun (set₀ ++ inputs))
    (a : ArcStr) (ha : a ∈ (internAll set₀ inputs).1)
    (b : ArcStr) (hb : b ∈ (internAll set₀ inputs).1) :
    a.ptr = b.ptr ↔ a.val = b.val := by
  have haf := internAll_outputs_mem inputs set₀ a ha
  have hbf := internAll_outputs_mem inputs set₀ b hb
  have hmem : ∀ x ∈ (internAll set₀ inputs).2, x ∈ set₀ ++ inputs := by
    intro x hx
    exact List.mem_append.mpr (internAll_sources inputs set₀ x hx)
  constructor
  · intro hp
    exact hptr a (hmem a haf) b (hmem b hbf) hp
  · intro hv
    rw [internAll_valUniq inputs set₀ huniq a haf b hbf hv]

/-- C7 (witness): `intern_ptr_eq_iff_val_eq` on the inputs
`[⟨1, "a"⟩, ⟨2, "a"⟩, ⟨3, "b"⟩]` interned into an empty set, applied to the
first and third returned handles. -/
theorem intern_ptr_eq_iff_val_eq_witness :
    (ArcStr.mk 1 "a").ptr = (ArcStr.mk 3 "b").ptr ↔
      (ArcStr.mk 1 "a").val = (ArcStr.mk 3 "b").val :=
  intern_ptr_eq_iff_val_eq []
    [ArcStr.mk 1 "a", ArcStr.mk 2 "a", ArcStr.mk 3 "b"]
    (by decide) (by decide)
    (ArcStr.mk 1 "a") (by decide) (ArcStr.mk 3 "b") (by decide)

/-! ## Claim C8: a failed reload leaves `updating_now` set forever -/

/-- Once `updating_now` is set, every further `do_reload` fails fast with
`Already updating!` and leaves the state untouched. -/
theorem reloadAttempts_stuck (α : Type) (st : DatabaseState α)
    (h : st.updating_now = true)
    (attempts : List (Except String (α × List String) × Int × Int)) :
    (reloadAttempts st attempts).2 = st ∧
    ∀ r ∈ (reloadAttempts st attempts).1, r = Except.error "Already updating!" := by
  induction attempts with
  | nil => exact ⟨rfl, by simp [reloadAttempts]⟩
  | cons a t ih =>
    obtain ⟨load, now, mtime⟩ := a
    have hstep : do_reload st load now mtime = (Except.error "Already updating!", st) := by
      simp [do_reload, h]
    refine ⟨?_, ?_⟩
    · simp only [reloadAttempts, hstep]
      exact ih.1
    · intro r hr
      simp only [reloadAttempts, hstep] at hr
      rcases List.mem_cons.mp hr with rfl | hr
      · rfl
      · exact ih.2 r hr

/-- C8: if a reload starts from an idle state and the load fails, the error
propagates with `updating_now` left `true` and the published snapshot (`db`)
unchanged; every subsequent reload attempt, whatever its load outcome, then
fails with `Already updating!` and the state never changes again. -/
theorem failed_reload_sticks (α : Type) (st : DatabaseState α) (e : String)
    (now mtime : Int)
    (attempts : List (Except String (α × List String) × Int × Int))
    (h0 : st.updating_now = false) :
    (do_reload st (Except.error e) now mtime).1 = Except.error e ∧
    (do_reload st (Except.error e) now mtime).2.updating_now = true ∧
    (do_reload st (Except.error e) now mtime).2.db = st.db ∧
    (reloadAttempts (do_reload st (Except.error e) now mtime).2 attempts).2 =
      (do_reload st (Except.error e) now mtime).2 ∧
    ∀ r ∈ (reloadAttempts (do_reload st (Except.error e) now mtime).2 attempts).1,
      r = Except.error "Already updating!" := by
  have hstep : do_reload st (Except.error e) now mtime =
      (Except.error e, { st with updating_now := true }) := by
    simp [do_reload, h0]
  rw [hstep]
  have hstuck := reloadAttempts_stuck α { st with updating_now := true } rfl attempts
  exact ⟨rfl, rfl, rfl, hstuck.1, hstuck.2⟩

/-- C8 (witness): `failed_reload_sticks` on a concrete idle state, a missing-file
load error, and one subsequent successful-load attempt. -/
theorem failed_reload_sticks_witness :
    (do_reload (DatabaseState.mk (1 : Nat) [] 0 0 false)
        (Except.error "Could not open the titles file") 5 6).1 =
      Except.error "Could not open the titles file" ∧
    (do_reload (DatabaseState.mk (1 : Nat) [] 0 0 false)
        (Except.error "Could not open the titles file") 5 6).2.updating_now = true ∧
    (do_reload (DatabaseState.mk (1 : Nat) [] 0 0 false)
        (Except.error "Could not open the titles file") 5 6).2.db =
      (DatabaseState.mk (1 : Nat) [] 0 0 false).db ∧
    (reloadAttempts
        (do_reload (DatabaseState.mk (1 : Nat) [] 0 0 false)
          (Except.error "Could not open the titles file") 5 6).2
        [(Except.ok (2, []), 7, 8)]).2 =
      (do_reload (DatabaseState.mk (1 : Nat) [] 0 0 false)
        (Except.error "Could not open the titles file") 5 6).2 ∧
    ∀ r ∈ (reloadAttempts
        (do_reload (DatabaseState.mk (1 : Nat) [] 0 0 false)
          (Except.error "Could not open the titles file") 5 6).2
        [(Except.ok (2, []), 7, 8)]).1,
      r = Except.error "Already updating!" :=
  failed_reload_sticks Nat (DatabaseState.mk 1 [] 0 0 false)
    "Could not open the titles file" 5 6 [(Except.ok (2, []), 7, 8)] rfl


/-! ## Claim C2: the branding random time -/

/-- Bounds for the segment walk: from a nonnegative residue bounded by the total
remaining length, over well-formed segments, the walk lands in `[0, 1]`. -/
theorem walkSegments_bounds (l : List UncutSegment) (r : ℚ)
    (hl : ∀ s ∈ l, segValid s) (hr0 : 0 ≤ r)
    (hr1 : r ≤ (l.map UncutSegment.length).sum) :
    0 ≤ walkSegments r l ∧ walkSegments r l ≤ 1 := by
  induction l generalizing r with
  | nil =>
    simp only [List.map_nil, List.sum_nil] at hr1
    have : r = 0 := le_antisymm hr1 hr0
    subst this
    simp [walkSegments]
  | cons s t ih =>
    have hs := hl s (List.mem_cons_self s t)
    simp only [walkSegments]
    split
    · rename_i hle
      constructor
      · exact add_nonneg hr0 hs.1
      · have h2 := hs.2.2
        linarith
    · rename_i hgt
      push_neg at hgt
      apply ih
      · exact fun x hx => hl x (List.mem_cons_of_mem s hx)
      · linarith
      · simp only [List.map_cons, List.sum_cons] at hr1
        linarith

/-- C2 (counterexample): on the `VideoInfo` produced from a duration row of 100
seconds and the single segment `(50, 100)` (uncut segments `[{0, 1/2}]`,
`has_outro` true), an Alea draw of `1/2` makes the code return `1/4` — a
fraction of the duration — while the claim's wording (scaling lengths and
offsets by `video_duration`, yielding seconds) demands `25`. -/
theorem c2_counterexample :
    mkVideoInfo
        { video_id := "v", time_submitted := 0, video_duration := 100, has_outro := true }
        (some [{ video_id := "v", start_time := 50, end_time := 100 }]) =
      some { video_id := "v", video_duration := 100,
             uncut_segments := [{ offset := 0, length := 1 / 2 }], has_outro := true } ∧
    get_random_time_for_video (1 / 2)
        (some { video_id := "v", video_duration := 100,
                uncut_segments := [{ offset := 0, length := 1 / 2 }], has_outro := true }) ≠
      claimRandomTime (1 / 2)
        { video_id := "v", video_duration := 100,
          uncut_segments := [{ offset := 0, length := 1 / 2 }], has_outro := true } := by
  constructor
  · norm_num [mkVideoInfo, uncutSegments, sortByStart, insertSeg, reduceStep, finalizeUncut]
  · norm_num [get_random_time_for_video, walkSegments, claimRandomTime, walkSegmentsClaim]

/-- C2 (amended): for a video with a known `VideoInfo` whose uncut segments are
well formed, the branding `randomTime` takes the Alea draw (subtracting `0.9`
when `has_outro` is false and the draw exceeds `0.9`), scales it by the plain
sum of uncut-segment lengths (fractions — not multiplied by `video_duration`),
and maps it into the containing uncut segment by adding `segment.offset`, so
the returned value is a position expressed as a fraction of the video duration
in `[0, 1]`, not a timestamp in seconds. -/
theorem random_time_fraction (draw : ℚ) (info : VideoInfo)
    (h0 : 0 ≤ draw) (h1 : draw < 1)
    (hseg : ∀ s ∈ info.uncut_segments, segValid s) :
    0 ≤ get_random_time_for_video draw (some info) ∧
    get_random_time_for_video draw (some info) ≤ 1 := by
  have hsum0 : 0 ≤ (info.uncut_segments.map UncutSegment.length).sum := by
    apply List.sum_nonneg
    intro x hx
    rcases List.mem_map.mp hx with ⟨s, hs, rfl⟩
    exact (hseg s hs).2.1
  have hr0a : 0 ≤ (if ¬info.has_outro ∧ 9 / 10 < draw then draw - 9 / 10 else draw) := by
    split
    · rename_i h; linarith [h.2]
    · exact h0
  have hr0b : (if ¬info.has_outro ∧ 9 / 10 < draw then draw - 9 / 10 else draw) ≤ 1 := by
    split <;> linarith
  simp only [get_random_time_for_video]
  apply walkSegments_bounds _ _ hseg
  · exact mul_nonneg hr0a hsum0
  · calc (if ¬info.has_outro ∧ 9 / 10 < draw then draw - 9 / 10 else draw) *
        (info.uncut_segments.map UncutSegment.length).sum ≤
        1 * (info.uncut_segments.map UncutSegment.length).sum :=
          mul_le_mul_of_nonneg_right hr0b hsum0
      _ = (info.uncut_segments.map UncutSegment.length).sum := one_mul _

/-- C2 (witness): `random_time_fraction` on the draw `1/2` and the `VideoInfo`
with uncut segments `[{0, 1/2}]`. -/
theorem random_time_fraction_witness :
    0 ≤ get_random_time_for_video (1 / 2)
        (some { video_id := "v", video_duration := 100,
                uncut_segments := [{ offset := 0, length := 1 / 2 }], has_outro := true }) ∧
    get_random_time_for_video (1 / 2)
        (some { video_id := "v", video_duration := 100,
                uncut_segments := [{ offset := 0, length := 1 / 2 }], has_outro := true }) ≤ 1 :=
  random_time_fraction (1 / 2)
    { video_id := "v", video_duration := 100,
      uncut_segments := [{ offset := 0, length := 1 / 2 }], has_outro := true }
    (by norm_num) (by norm_num)
    (by
      intro s hs
      rw [List.mem_singleton] at hs
      subst hs
      norm_num [segValid])


/-! ## Claim C4: the uncut-segment invariant -/

/-- `insertSeg` adds no elements beyond the inserted one. -/
theorem mem_insertSeg (s x : TrimmedSponsorTime) (l : List TrimmedSponsorTime)
    (hx : x ∈ insertSeg s l) : x = s ∨ x ∈ l := by
  induction l with
  | nil =>
    simp only [insertSeg, List.mem_singleton] at hx
    exact Or.inl hx
  | cons t ts ih =>
    simp only [insertSeg] at hx
    split at hx
    · rcases List.mem_cons.mp hx with rfl | hx
      · exact Or.inl rfl
      · exact Or.inr hx
    · rcases List.mem_cons.mp hx with rfl | hx
      · exact Or.inr (List.mem_cons_self _ _)
      · rcases ih hx with h | h
        · exact Or.inl h
        · exact Or.inr (List.mem_cons_of_mem _ h)

/-- Sorting by start time adds no elements. -/
theorem mem_sortByStart (x : TrimmedSponsorTime) (l : List TrimmedSponsorTime)
    (hx : x ∈ sortByStart l) : x ∈ l := by
  induction l with
  | nil => simp [sortByStart] at hx
  | cons s ss ih =>
    simp only [sortByStart] at hx
    rcases mem_insertSeg s x _ hx with rfl | hx
    · exact List.mem_cons_self _ _
    · exact List.mem_cons_of_mem _ (ih hx)

/-- One reduction step preserves the accumulator invariant, for any duration
value, provided the incoming segment satisfies `0 ≤ start_time ≤ end_time`. -/
theorem reduceStep_inv (d : ℚ) (acc : List UncutSegment) (seg : TrimmedSponsorTime)
    (h0 : 0 ≤ seg.start_time) (h1 : seg.start_time ≤ seg.end_time)
    (hinv : revInv acc) : revInv (reduceStep d acc seg) := by
  by_cases hd : d ≤ seg.start_time
  · simpa [reduceStep, hd] using hinv
  · have hsd : seg.start_time < d := not_le.mp hd
    have hdpos : 0 < d := lt_of_le_of_lt h0 hsd
    have hfs0 : 0 ≤ seg.start_time / d := div_nonneg h0 hdpos.le
    have hfs1 : seg.start_time / d < 1 := (div_lt_one hdpos).mpr hsd
    have hfe0 : 0 ≤ min seg.end_time d / d :=
      div_nonneg (le_min (h0.trans h1) hdpos.le) hdpos.le
    have hfe1 : min seg.end_time d / d ≤ 1 := (div_le_one hdpos).mpr (min_le_right _ _)
    have hfsfe : seg.start_time / d ≤ min seg.end_time d / d :=
      (div_le_div_iff_of_pos_right hdpos).mpr (le_min h1 hsd.le)
    cases acc with
    | nil =>
      simp only [reduceStep, if_neg hd]
      by_cases he : seg.end_time = d
      · by_cases hz : seg.start_time / d = 0
        · simp [he, hz, revInv]
        · simp only [he, hz, ite_true, ite_false, if_neg, if_pos, ne_eq,
            not_true_eq_false, not_false_eq_true, List.nil_append]
          refine ⟨by simp, ?_⟩
          intro s hs
          simp only [List.mem_singleton] at hs
          subst hs
          exact ⟨le_refl 0, hfs0, by simpa using hfs1.le⟩
      · by_cases hz : seg.start_time / d = 0
        · simp only [he, hz, ne_eq, not_false_eq_true, ite_true, not_true_eq_false,
            ite_false, List.append_nil]
          refine ⟨by simp, ?_⟩
          intro s hs
          simp only [List.mem_singleton] at hs
          subst hs
          exact ⟨hfe0, by simp; linarith, by simp⟩
        · simp only [he, hz, ne_eq, not_false_eq_true, ite_true, List.singleton_append]
          refine ⟨?_, ?_⟩
          · refine List.pairwise_cons.mpr ⟨?_, by simp⟩
            intro y hy
            simp only [List.mem_singleton] at hy
            subst hy
            simpa using hfsfe
          · intro s hs
            rcases List.mem_cons.mp hs with rfl | hs
            · exact ⟨hfe0, by simp; linarith, by simp⟩
            · simp only [List.mem_singleton] at hs
              subst hs
              exact ⟨le_refl 0, hfs0, by simpa using hfs1.le⟩
    | cons last rest =>
      obtain ⟨hp, hv⟩ := hinv
      have hlastv := hv last (List.mem_cons_self _ _)
      have hrestle : ∀ y ∈ rest, y.offset + y.length ≤ last.offset :=
        (List.pairwise_cons.mp hp).1
      have hprest := (List.pairwise_cons.mp hp).2
      have hvrest : ∀ s ∈ rest, segValid s := fun s hs => hv s (List.mem_cons_of_mem _ hs)
      simp only [reduceStep, if_neg hd]
      by_cases hc1 : min seg.end_time d / d < last.offset
      · simp only [if_pos hc1]
        exact ⟨hp, hv⟩
      · simp only [if_neg hc1]
        push_neg at hc1
        by_cases hc2 : seg.start_time / d < last.offset
        · simp only [if_pos hc2]
          refine ⟨List.pairwise_cons.mpr ⟨?_, hprest⟩, ?_⟩
          · intro y hy
            exact le_trans (hrestle y hy) hc1
          · intro s hs
            rcases List.mem_cons.mp hs with rfl | hs
            · exact ⟨hfe0, by simp; linarith, by simp⟩
            · exact hvrest s hs
        · simp only [if_neg hc2]
          push_neg at hc2
          refine ⟨?_, ?_⟩
          · refine List.pairwise_cons.mpr ⟨?_, List.pairwise_cons.mpr ⟨?_, hprest⟩⟩
            · intro y hy
              rcases List.mem_cons.mp hy with rfl | hy
              · simp
                linarith
              · exact le_trans (hrestle y hy) (le_trans hc2 hfsfe)
            · intro y hy
              simpa using hrestle y hy
          · intro s hs
            rcases List.mem_cons.mp hs with rfl | hs
            · exact ⟨hfe0, by simp; linarith, by simp⟩
            · rcases List.mem_cons.mp hs with rfl | hs
              · exact ⟨hlastv.1, by simp; linarith, by simp; linarith⟩
              · exact hvrest s hs

/-- The reduction fold preserves the accumulator invariant. -/
theorem foldl_reduceStep_inv (d : ℚ) (segs : List TrimmedSponsorTime)
    (hsegs : ∀ t ∈ segs, 0 ≤ t.start_time ∧ t.start_time ≤ t.end_time)
    (acc : List UncutSegment) (hacc : revInv acc) :
    revInv (segs.foldl (reduceStep d) acc) := by
  induction segs generalizing acc with
  | nil => exact hacc
  | cons s t ih =>
    simp only [List.foldl_cons]
    exact ih (fun x hx => hsegs x (List.mem_cons_of_mem s hx)) _
      (reduceStep_inv d acc s (hsegs s (List.mem_cons_self s t)).1
        (hsegs s (List.mem_cons_self s t)).2 hacc)

/-- The post-loop fixup turns an invariant-satisfying accumulator into a valid
forward-ordered uncut-segment list. -/
theorem revInv_finalize (acc : List UncutSegment) (h : revInv acc) :
    validSegments (finalizeUncut acc) := by
  cases acc with
  | nil =>
    refine ⟨by simp [finalizeUncut], ?_⟩
    intro s hs
    simp only [finalizeUncut, List.mem_singleton] at hs
    subst hs
    exact ⟨le_refl 0, by norm_num, by norm_num⟩
  | cons last rest =>
    obtain ⟨hp, hv⟩ := h
    by_cases hoff : last.offset = 1
    · simp only [finalizeUncut, if_pos hoff]
      refine ⟨List.pairwise_reverse.mpr (List.Pairwise.of_cons hp), ?_⟩
      intro s hs
      exact hv s (List.mem_cons_of_mem _ (List.mem_reverse.mp hs))
    · simp only [finalizeUncut, if_neg hoff]
      refine ⟨List.pairwise_reverse.mpr hp, ?_⟩
      intro s hs
      exact hv s (List.mem_reverse.mp hs)

/-- The full per-video reduction produces a valid uncut-segment list whenever
every retained segment satisfies `0 ≤ start_time ≤ end_time`, for any duration. -/
theorem uncutSegments_valid (d : ℚ) (l : List TrimmedSponsorTime)
    (hl : ∀ t ∈ l, 0 ≤ t.start_time ∧ t.start_time ≤ t.end_time) :
    validSegments (uncutSegments d l) := by
  apply revInv_finalize
  exact foldl_reduceStep_inv d (sortByStart l)
    (fun x hx => hl x (mem_sortByStart x l hx)) [] ⟨List.Pairwise.nil, by simp⟩

/-- Over a valid list headed by `x`, the lengths sum to at most `1 - x.offset`. -/
theorem validSegments_sum_cons (l : List UncutSegment) (x : UncutSegment)
    (h : validSegments (x :: l)) :
    ((x :: l).map UncutSegment.length).sum ≤ 1 - x.offset := by
  induction l generalizing x with
  | nil =>
    have hx := h.2 x (List.mem_cons_self _ _)
    simp only [List.map_cons, List.map_nil, List.sum_cons, List.sum_nil, add_zero]
    linarith [hx.2.2]
  | cons y t ih =>
    have hx := h.2 x (List.mem_cons_self _ _)
    have hrel : x.offset + x.length ≤ y.offset :=
      (List.pairwise_cons.mp h.1).1 y (List.mem_cons_self _ _)
    have htail : validSegments (y :: t) :=
      ⟨(List.pairwise_cons.mp h.1).2, fun s hs => h.2 s (List.mem_cons_of_mem _ hs)⟩
    have hts := ih y htail
    simp only [List.map_cons, List.sum_cons] at hts ⊢
    linarith

/-- The lengths of a valid uncut-segment list sum to at most 1. -/
theorem validSegments_sum (l : List UncutSegment) (h : validSegments l) :
    (l.map UncutSegment.length).sum ≤ 1 := by
  cases l with
  | nil => simp
  | cons x t =>
    have hs := validSegments_sum_cons t x h
    have hx := h.2 x (List.mem_cons_self _ _)
    linarith [hx.1]

/-- A valid uncut-segment list is sorted by offset. -/
theorem validSegments_offsets (l : List UncutSegment) (h : validSegments l) :
    l.Pairwise (fun x y => x.offset ≤ y.offset) := by
  refine List.Pairwise.imp_of_mem ?_ h.1
  intro a b ha _ hab
  have := (h.2 a ha).2.1
  linarith

/-- C4 (counterexample): a segment with negative `start_time` is not clipped —
over a 100-second video, the single segment `(-10, 5)` produces the uncut list
`[{0, -1/10}, {1/20, 19/20}]`, whose first segment has negative length,
violating the invariant. -/
theorem c4_counterexample :
    mkVideoInfo
        { video_id := "v", time_submitted := 0, video_duration := 100, has_outro := false }
        (some [{ video_id := "v", start_time := -10, end_time := 5 }]) =
      some { video_id := "v", video_duration := 100,
             uncut_segments := [{ offset := 0, length := -(1 / 10) },
                                { offset := 1 / 20, length := 19 / 20 }],
             has_outro := false } ∧
    ¬validSegments [({ offset := 0, length := -(1 / 10) } : UncutSegment),
                    { offset := 1 / 20, length := 19 / 20 }] := by
  constructor
  · norm_num [mkVideoInfo, uncutSegments, sortByStart, insertSeg, reduceStep, finalizeUncut]
  · intro h
    have := (h.2 { offset := 0, length := -(1 / 10) } (List.mem_cons_self _ _)).2.1
    norm_num at this

/-- C4 (amended): for every `VideoInfo` produced by a load whose retained
segments all satisfy `0 ≤ start_time ≤ end_time` (end times past the duration
are clipped, but negative start times are not, so they must be excluded), the
`uncut_segments` list is pairwise disjoint in order, sorted by offset, every
segment lies within `[0, 1]`, and the lengths sum to at most 1. -/
theorem mkVideoInfo_invariant (dur : VideoDurationRec)
    (segs : Option (List TrimmedSponsorTime)) (vi : VideoInfo)
    (hsegs : ∀ l, segs = some l → ∀ t ∈ l, 0 ≤ t.start_time ∧ t.start_time ≤ t.end_time)
    (hvi : mkVideoInfo dur segs = some vi) :
    validSegments vi.uncut_segments ∧
    vi.uncut_segments.Pairwise (fun x y => x.offset ≤ y.offset) ∧
    (vi.uncut_segments.map UncutSegment.length).sum ≤ 1 := by
  have hvalid : validSegments vi.uncut_segments := by
    cases segs with
    | none =>
      by_cases hpos : 0 < dur.video_duration
      · simp only [mkVideoInfo, if_pos hpos, Option.some.injEq] at hvi
        rw [← hvi]
        refine ⟨by simp, ?_⟩
        intro s hs
        simp only [List.mem_singleton] at hs
        subst hs
        exact ⟨le_refl 0, by norm_num, by norm_num⟩
      · simp [mkVideoInfo, if_neg hpos] at hvi
    | some l =>
      have hl := hsegs l rfl
      by_cases hpos : 0 < dur.video_duration
      · simp only [mkVideoInfo, if_pos hpos, Option.some.injEq] at hvi
        rw [← hvi]
        exact uncutSegments_valid dur.video_duration l hl
      · cases hmax : maxEndTime l with
        | none => simp [mkVideoInfo, if_neg hpos, hmax] at hvi
        | some vd =>
          simp only [mkVideoInfo, if_neg hpos, hmax, Option.some.injEq] at hvi
          rw [← hvi]
          exact uncutSegments_valid vd l hl
  exact ⟨hvalid, validSegments_offsets _ hvalid, validSegments_sum _ hvalid⟩

/-- C4 (witness): `mkVideoInfo_invariant` on a 100-second video with the single
retained segment `(10, 20)` (the spec's own end-to-end scenario). -/
theorem mkVideoInfo_invariant_witness :
    validSegments
      ({ video_id := "v", video_duration := 100,
         uncut_segments := [{ offset := 0, length := 1 / 10 },
                            { offset := 1 / 5, length := 4 / 5 }],
         has_outro := true } : VideoInfo).uncut_segments ∧
    ({ video_id := "v", video_duration := 100,
       uncut_segments := [{ offset := 0, length := 1 / 10 },
                          { offset := 1 / 5, length := 4 / 5 }],
       has_outro := true } : VideoInfo).uncut_segments.Pairwise
        (fun x y => x.offset ≤ y.offset) ∧
    (({ video_id := "v", video_duration := 100,
        uncut_segments := [{ offset := 0, length := 1 / 10 },
                           { offset := 1 / 5, length := 4 / 5 }],
        has_outro := true } : VideoInfo).uncut_segments.map UncutSegment.length).sum ≤ 1 :=
  mkVideoInfo_invariant
    { video_id := "v", time_submitted := 0, video_duration := 100, has_outro := true }
    (some [{ video_id := "v", start_time := 10, end_time := 20 }])
    { video_id := "v", video_duration := 100,
      uncut_segments := [{ offset := 0, length := 1 / 10 },
                         { offset := 1 / 5, length := 4 / 5 }],
      has_outro := true }
    (by
      intro l hl t ht
      rw [Option.some.injEq] at hl
      subst hl
      rw [List.mem_singleton] at ht
      subst ht
      norm_num)
    (by norm_num [mkVideoInfo, uncutSegments, sortByStart, insertSeg, reduceStep,
          finalizeUncut])

end DAB
